import Mathlib

/-!
Verification of the Activity Grouping & Project Synthesis heuristic
(`scripts/project_analyzer.py`, class `ProjectAnalyzer`).

The Python source is shallowly embedded: free text is `String` (processed as
`List Char`), records are structures holding the fields the analyzer reads,
Python `set` values of keyword categories are represented by a canonical list
in configuration order together with an explicit linearization parameter
`pick` that models the (hash-order dependent) `list(some_set)` conversion,
and Python exceptions are modelled with `Except Unit`.  The fixed regular
expressions of `_detect_project_name` are embedded as deterministic matchers
that implement the backtracking search semantics of `re.search`/`re.findall`
for those particular patterns (all quantifiers in them are forced-greedy
except the trailing word-boundary of the capitalized-phrase pattern, which
backtracks over the number of phrase-word iterations).
-/

set_option autoImplicit false

/-- Character class of Python's `\w` (ASCII fragment): letters, digits, `_`. -/
def isWordCh (c : Char) : Bool := c.isAlphanum || c == '_'

/-- Character class of Python's `\s` (ASCII fragment):
space, tab, newline, carriage return, vertical tab, form feed. -/
def isSpaceCh (c : Char) : Bool :=
  c == ' ' || c == '\t' || c == '\n' || c == '\r' || c == '\x0b' || c == '\x0c'

/-- ASCII letter test, Python's `[a-zA-Z]`. -/
def isAlphaCh (c : Char) : Bool := c.isAlpha

/-- Lower-case an entire string, Python's `str.lower()` (ASCII fragment). -/
def lowerStr (s : String) : String := String.mk (s.data.map Char.toLower)

/-- Is `pre` a prefix of `cs` (character wise)? -/
def isPrefixCL : List Char → List Char → Bool
  | [], _ => true
  | _ :: _, [] => false
  | a :: as, b :: bs => a == b && isPrefixCL as bs

/-- Python's substring test `needle in hay` on character lists. -/
def containsCL (needle : List Char) : List Char → Bool
  | [] => isPrefixCL needle []
  | c :: rest => isPrefixCL needle (c :: rest) || containsCL needle rest

/-- Python's substring test `needle in hay` on strings. -/
def containsStr (hay needle : String) : Bool := containsCL needle.data hay.data

/-- Python's `str.strip()` (ASCII whitespace fragment). -/
def pyStrip (s : List Char) : List Char :=
  ((s.dropWhile isSpaceCh).reverse.dropWhile isSpaceCh).reverse

/-- Python's `str.title()` (ASCII fragment): a letter that follows a letter is
lower-cased, a letter that follows a non-letter (or starts the string) is
upper-cased, other characters are kept. -/
def pyTitleAux : Bool → List Char → List Char
  | _, [] => []
  | prevAlpha, c :: r =>
    (if c.isAlpha then (if prevAlpha then c.toLower else c.toUpper) else c) ::
      pyTitleAux c.isAlpha r

/-- Python's `str.title()` on strings. -/
def pyTitle (s : String) : String := String.mk (pyTitleAux false s.data)

/-- Embedding of `ProjectAnalyzer._extract_keywords`: the set of category
names one of whose keywords occurs (case-insensitively) in the text.  The
Python `set` is represented canonically as the sublist of the configuration
keys, in configuration (= `dict` insertion) order. -/
def extract_keywords (cfg : List (String × List String)) (text : String) : List String :=
  if text = "" then []
  else
    (cfg.filter (fun ck => ck.2.any (fun kw => containsStr (lowerStr text) (lowerStr kw)))).map
      Prod.fst

/-- Embedding of `ProjectAnalyzer._categorize_project`: the ordered priority
cascade over the keyword-category set and the (lower-cased) title. -/
def categorize_project (keywords : List String) (title : String) : String :=
  let tl := lowerStr title
  if keywords.contains "ai" || containsStr tl "klaudia" || containsStr tl "remediation" then "ai"
  else if keywords.contains "security" || containsStr tl "rbac" || containsStr tl "auth" then
    "security"
  else if keywords.contains "cost" || containsStr tl "finops" || containsStr tl "hpa" then "cost"
  else if keywords.contains "performance" || containsStr tl "perf" || containsStr tl "optimize" then
    "perf"
  else if keywords.contains "infrastructure" || containsStr tl "infra" ||
      containsStr tl "deployment" then "infra"
  else if keywords.contains "team" || containsStr tl "interview" || containsStr tl "hiring" then
    "team"
  else "feature"

/-- Embedding of `ProjectAnalyzer._get_icon_class`: the static `icon_map`
dictionary lookup with default `'icon-feature'`. -/
def get_icon_class (category : String) : String :=
  if category = "infra" then "icon-infra"
  else if category = "feature" then "icon-feature"
  else if category = "perf" then "icon-perf"
  else if category = "security" then "icon-security"
  else if category = "ai" then "icon-ai"
  else if category = "cost" then "icon-cost"
  else if category = "team" then "icon-team"
  else "icon-feature"

/-- Embedding of `ProjectAnalyzer._get_icon_emoji`: the static `emoji_map`
dictionary lookup with a default glyph.  The glyph strings reproduce the
exact code points stored in the source file. -/
def get_icon_emoji (category : String) : String :=
  if category = "infra" then "\u00F0\u0178\u2014\u00EF\u00B8"
  else if category = "feature" then "\u00E2\u0161\u201C"
  else if category = "perf" then "\u00E2\u0161\u00A1"
  else if category = "security" then "\u00F0\u0178\u201D"
  else if category = "ai" then "\u00F0\u0178\u00A7\u00A0"
  else if category = "cost" then "\u00F0\u0178\u2019\u00B0"
  else if category = "team" then "\u00F0\u0178\u2018\u00A5"
  else "\u00F0\u0178\u201C\u00A6"

/-- Consume the literal `lit` case-insensitively from the front of `cs`,
returning the rest on success. -/
def stripLitCI : List Char → List Char → Option (List Char)
  | [], cs => some cs
  | _ :: _, [] => none
  | l :: ls, c :: cs => if l.toLower == c.toLower then stripLitCI ls cs else none

/-- The alternation `(?:v2|v3|phase\s+\d+|kickoff|integration|implementation)`
of detection pattern 1, tried at the front of `cs` (case-insensitive). -/
def matchAlt1 (cs : List Char) : Bool :=
  (stripLitCI "v2".data cs).isSome || (stripLitCI "v3".data cs).isSome ||
  (match stripLitCI "phase".data cs with
   | some r =>
     let sp := r.span isSpaceCh
     !sp.1.isEmpty &&
       (match sp.2 with
        | d :: _ => d.isDigit
        | [] => false)
   | none => false) ||
  (stripLitCI "kickoff".data cs).isSome ||
  (stripLitCI "integration".data cs).isSome ||
  (stripLitCI "implementation".data cs).isSome

/-- Detection pattern 1, `(\w+)\s+(?:v2|v3|phase\s+\d+|kickoff|integration|implementation)`,
anchored at the front of `cs`; returns the capture group.  `\w+` and `\s+`
are forced-greedy here: shrinking either leaves a character that the next
sub-pattern cannot match, so maximal runs are the only candidates. -/
def try1At (cs : List Char) : Option (List Char) :=
  let w := cs.span isWordCh
  if w.1.isEmpty then none
  else
    let sp := w.2.span isSpaceCh
    if sp.1.isEmpty then none
    else if matchAlt1 sp.2 then some w.1 else none

/-- One branch of detection pattern 2 for a fixed leading literal:
`lit` then `:` then `\s*` then the capture `([A-Z][a-zA-Z\s]+)`
(under `re.IGNORECASE`, `[A-Z]` matches any ASCII letter). -/
def try2Lit (lit : List Char) (cs : List Char) : Option (List Char) :=
  match stripLitCI lit cs with
  | none => none
  | some r =>
    match r with
    | ':' :: r2 =>
      let sp := r2.span isSpaceCh
      match sp.2 with
      | c :: r4 =>
        if isAlphaCh c then
          let run := r4.span (fun d => isAlphaCh d || isSpaceCh d)
          if run.1.isEmpty then none else some (c :: run.1)
        else none
      | [] => none
    | _ => none

/-- Detection pattern 2, `(?:kickoff|review|sync|meeting):\s*([A-Z][a-zA-Z\s]+)`,
anchored at the front of `cs`. -/
def try2At (cs : List Char) : Option (List Char) :=
  try2Lit "kickoff".data cs <|> try2Lit "review".data cs <|>
  try2Lit "sync".data cs <|> try2Lit "meeting".data cs

/-- Shared shape of detection patterns 3 and 4:
`([A-Z][a-zA-Z]+)\s+(?:lit1|lit2|lit3)` anchored at the front of `cs`
(under `re.IGNORECASE`, `[A-Z]` matches any ASCII letter). -/
def try34At (lits : List (List Char)) (cs : List Char) : Option (List Char) :=
  match cs with
  | c :: r =>
    if isAlphaCh c then
      let run := r.span isAlphaCh
      if run.1.isEmpty then none
      else
        let sp := run.2.span isSpaceCh
        if sp.1.isEmpty then none
        else if lits.any (fun l => (stripLitCI l sp.2).isSome) then some (c :: run.1)
        else none
    else none
  | [] => none

/-- Detection pattern 3, `([A-Z][a-zA-Z]+)\s+(?:project|initiative|effort)`. -/
def try3At (cs : List Char) : Option (List Char) :=
  try34At ["project".data, "initiative".data, "effort".data] cs

/-- Detection pattern 4, `([A-Z][a-zA-Z]+)\s+(?:by|from|with)`. -/
def try4At (cs : List Char) : Option (List Char) :=
  try34At ["by".data, "from".data, "with".data] cs

/-- `re.search` position loop: try the anchored matcher at every start
position, left to right, returning the first capture. -/
def searchPos (f : List Char → Option (List Char)) : List Char → Option (List Char)
  | [] => none
  | c :: rest => f (c :: rest) <|> searchPos f rest

/-- The per-pattern step of `_detect_project_name`'s pattern loop:
on a match, strip the capture and keep it only when longer than 2
characters (otherwise the loop moves on to the next pattern). -/
def patStep (r : Option (List Char)) : Option String :=
  match r with
  | some g =>
    let n := pyStrip g
    if n.length > 2 then some (String.mk n) else none
  | none => none

/-- The four-pattern loop of `_detect_project_name`, in listed order. -/
def tryPatterns (t : List Char) : Option String :=
  patStep (searchPos try1At t) <|> patStep (searchPos try2At t) <|>
  patStep (searchPos try3At t) <|> patStep (searchPos try4At t)

/-- Word-boundary test of `\b` at the junction before `rest`: the previous
character is a word character, so the boundary holds iff `rest` is empty or
starts with a non-word character. -/
def boundaryOK (rest : List Char) : Bool :=
  match rest with
  | [] => true
  | d :: _ => !isWordCh d

/-- Greedy extension step for the capitalized-phrase pattern
`\b([A-Z][a-z]+(?:\s+[A-Z][a-z]+)*)\b` of the fallback in
`_detect_project_name`.  `word` is the text matched so far (which ends right
after a `[a-z]+` run) and `rest` the remaining input.  The star is greedy:
the matcher first tries to append one more `\s+[A-Z][a-z]+` group and only
when no deeper extension reaches a closing word boundary does it settle for
the current end (whose boundary is then checked).  `\s+` and `[a-z]+` runs
are forced-greedy: shrinking one leaves a character the next sub-pattern
rejects and that is itself a word character, so the boundary fails too. -/
def phraseExt : Nat → List Char → List Char → Option (List Char × List Char)
  | 0, _, _ => none
  | fuel + 1, word, rest =>
    let fallback : Option (List Char × List Char) :=
      if boundaryOK rest then some (word, rest) else none
    let sp := rest.span isSpaceCh
    if sp.1.isEmpty then fallback
    else
      match sp.2 with
      | u :: r4 =>
        if u.isUpper then
          let ls := r4.span Char.isLower
          if ls.1.isEmpty then fallback
          else
            match phraseExt fuel (word ++ sp.1 ++ u :: ls.1) ls.2 with
            | some res => some res
            | none => fallback
        else fallback
      | [] => fallback

/-- Match `[A-Z][a-z]+(?:\s+[A-Z][a-z]+)*\b` at the front of `cs` (the
leading `\b` is checked by the caller), returning the matched phrase and the
rest of the input. -/
def matchPhrase (cs : List Char) : Option (List Char × List Char) :=
  match cs with
  | c :: r =>
    if c.isUpper then
      let ls := r.span Char.isLower
      if ls.1.isEmpty then none else phraseExt (ls.2.length + 1) (c :: ls.1) ls.2
    else none
  | [] => none

/-- The scan of `re.findall(r'\b([A-Z][a-z]+(?:\s+[A-Z][a-z]+)*)\b', text)`:
try the phrase pattern at every position whose predecessor is not a word
character (that is the leading `\b`); after a match, resume right after it
(the last matched character is a lower-case letter, hence a word character). -/
def findAllCapAux : Nat → Bool → List Char → List String
  | 0, _, _ => []
  | _ + 1, _, [] => []
  | fuel + 1, prevIsWord, c :: rest =>
    if prevIsWord then findAllCapAux fuel (isWordCh c) rest
    else
      match matchPhrase (c :: rest) with
      | some (w, rest2) => String.mk w :: findAllCapAux fuel true rest2
      | none => findAllCapAux fuel (isWordCh c) rest

/-- All capitalized phrases of the text, in order of appearance. -/
def capWords (t : List Char) : List String := findAllCapAux t.length false t

/-- The stop words excluded by the fallback of `_detect_project_name`. -/
def stopWords : List String := ["the", "and", "for", "with", "from"]

/-- The selection loop over the first three capitalized phrases: return the
first one of length above 3 whose lower-cased form is not a stop word. -/
def firstGoodWord : List String → Option String
  | [] => none
  | w :: ws =>
    if w.length > 3 && !(stopWords.contains (lowerStr w)) then some w else firstGoodWord ws

/-- The capitalized-phrase fallback of `_detect_project_name`. -/
def fallbackCap (t : List Char) : Option String := firstGoodWord ((capWords t).take 3)

/-- Embedding of `ProjectAnalyzer._detect_project_name`. -/
def detect_project_name (text : String) : Option String :=
  if text = "" then none
  else tryPatterns text.data <|> fallbackCap text.data

/-- A pull-request record, restricted to the fields `ProjectAnalyzer` reads
(each via `pr.get(..., '')`, so an absent field is the empty string). -/
structure PRRec where
  title : String
  body : String
  created_at : String
  url : String
deriving DecidableEq

/-- A calendar-event record, restricted to the fields `ProjectAnalyzer`
reads (each via `event.get(..., '')`). -/
structure EvRec where
  title : String
  description : String
  date : String
deriving DecidableEq

/-- A Python `datetime` value as produced by `datetime.fromisoformat` in the
analyzer: date and time fields plus an optional UTC offset in minutes
(`none` models an offset-naive value).  Microseconds are not modelled; no
input accepted by the embedded parser carries them. -/
structure PyDT where
  year : Nat
  month : Nat
  day : Nat
  hour : Nat
  minute : Nat
  second : Nat
  tzmin : Option Int
deriving DecidableEq

/-- Gregorian leap-year test. -/
def isLeap (y : Nat) : Bool := (y % 4 == 0 && y % 100 != 0) || y % 400 == 0

/-- Length of a month. -/
def daysInMonth (y m : Nat) : Nat :=
  if m == 2 then (if isLeap y then 29 else 28)
  else if m == 4 || m == 6 || m == 9 || m == 11 then 30
  else 31

/-- Days in the months before month `m` of year `y`. -/
def daysBeforeMonth (y m : Nat) : Nat :=
  (List.range (m - 1)).foldl (fun a i => a + daysInMonth y (i + 1)) 0

/-- Proleptic-Gregorian day number of a date (days since the epoch of the
calendar; only monotonicity on valid dates matters here). -/
def dayNum (y m d : Nat) : Nat :=
  365 * (y - 1) + (y - 1) / 4 - (y - 1) / 100 + (y - 1) / 400 + daysBeforeMonth y m + d

/-- Absolute timestamp of a `PyDT` in seconds, with the UTC offset
subtracted for aware values; Python compares two aware values (or two naive
values) exactly by this quantity on the inputs arising here. -/
def absSec (d : PyDT) : Int :=
  (dayNum d.year d.month d.day : Int) * 86400 + (d.hour : Int) * 3600 +
    (d.minute : Int) * 60 + (d.second : Int) - (d.tzmin.getD 0) * 60

/-- Python's `<` on `datetime` values: comparing an offset-naive with an
offset-aware value raises `TypeError` (modelled as `Except.error`). -/
def pyLtDT (a b : PyDT) : Except Unit Bool :=
  if a.tzmin.isSome != b.tzmin.isSome then .error ()
  else .ok (decide (absSec a < absSec b))

/-- Python's `min` over a non-empty `datetime` list: keep the current
minimum, replacing it when a later item compares strictly below it. -/
def pyMinNE (x : PyDT) : List PyDT → Except Unit PyDT
  | [] => .ok x
  | y :: r => do
    let b ← pyLtDT y x
    pyMinNE (if b then y else x) r

/-- Python's `max` over a non-empty `datetime` list. -/
def pyMaxNE (x : PyDT) : List PyDT → Except Unit PyDT
  | [] => .ok x
  | y :: r => do
    let b ← pyLtDT x y
    pyMaxNE (if b then y else x) r

/-- Parse two decimal digits. -/
def parse2 : List Char → Option (Nat × List Char)
  | a :: b :: r =>
    if a.isDigit && b.isDigit then
      some ((a.toNat - '0'.toNat) * 10 + (b.toNat - '0'.toNat), r)
    else none
  | _ => none

/-- Parse four decimal digits. -/
def parse4 : List Char → Option (Nat × List Char)
  | a :: b :: c :: d :: r =>
    if a.isDigit && b.isDigit && c.isDigit && d.isDigit then
      some ((((a.toNat - '0'.toNat) * 10 + (b.toNat - '0'.toNat)) * 10 +
        (c.toNat - '0'.toNat)) * 10 + (d.toNat - '0'.toNat), r)
    else none
  | _ => none

/-- Parse a trailing UTC offset: nothing, or `+HH:MM` / `-HH:MM` ending the
string.  Returns the offset in minutes. -/
def parseTZ : List Char → Option (Option Int)
  | [] => some none
  | '+' :: r => do
    let (oh, r1) ← parse2 r
    match r1 with
    | ':' :: r2 => do
      let (om, r3) ← parse2 r2
      if r3.isEmpty && oh < 24 && om < 60 then some (some ((oh * 60 + om : Nat) : Int)) else none
    | _ => none
  | '-' :: r => do
    let (oh, r1) ← parse2 r
    match r1 with
    | ':' :: r2 => do
      let (om, r3) ← parse2 r2
      if r3.isEmpty && oh < 24 && om < 60 then some (some (-((oh * 60 + om : Nat) : Int))) else none
    | _ => none
  | _ => none

/-- Parse the time-of-day part `HH[:MM[:SS]]` followed by an optional UTC
offset. -/
def parseTime (cs : List Char) : Option (Nat × Nat × Nat × Option Int) := do
  let (hh, r1) ← parse2 cs
  match r1 with
  | ':' :: r2 => do
    let (mm, r3) ← parse2 r2
    match r3 with
    | ':' :: r4 => do
      let (ss, r5) ← parse2 r4
      let tz ← parseTZ r5
      pure (hh, mm, ss, tz)
    | _ => do
      let tz ← parseTZ r3
      pure (hh, mm, 0, tz)
  | _ => do
    let tz ← parseTZ r1
    pure (hh, 0, 0, tz)

/-- Model of `datetime.fromisoformat` on the fragment the analyzer feeds it:
`YYYY-MM-DD`, optionally followed by a single separator character and
`HH[:MM[:SS]]`, optionally ending in a `±HH:MM` offset; fields are
range-checked.  Strings outside this fragment (e.g. fractional seconds,
compressed forms) are not modelled and map to `none`, the value Python
rejects (`ValueError`) for every malformed string exercised here. -/
def fromIsoCL (cs : List Char) : Option PyDT := do
  let (y, r1) ← parse4 cs
  match r1 with
  | '-' :: r2 => do
    let (mo, r3) ← parse2 r2
    match r3 with
    | '-' :: r4 => do
      let (dy, r5) ← parse2 r4
      if y < 1 || mo < 1 || mo > 12 || dy < 1 || dy > daysInMonth y mo then none
      else
        match r5 with
        | [] => some ⟨y, mo, dy, 0, 0, 0, none⟩
        | _ :: r6 => do
          let (hh, mm, ss, tz) ← parseTime r6
          if hh > 23 || mm > 59 || ss > 59 then none else some ⟨y, mo, dy, hh, mm, ss, tz⟩
    | _ => none
  | _ => none

/-- `datetime.fromisoformat` on strings. -/
def pyFromIso (s : String) : Option PyDT := fromIsoCL s.data

/-- `datetime.isoformat()` zero-padded field printing. -/
def pad2 (n : Nat) : String := if n < 10 then "0" ++ toString n else toString n

/-- Four-digit zero-padded year printing. -/
def pad4 (n : Nat) : String :=
  if n < 10 then "000" ++ toString n
  else if n < 100 then "00" ++ toString n
  else if n < 1000 then "0" ++ toString n
  else toString n

/-- Model of `datetime.isoformat()` for the values arising here (no
microseconds): `YYYY-MM-DDTHH:MM:SS` plus `±HH:MM` when aware. -/
def pyIsoformat (d : PyDT) : String :=
  pad4 d.year ++ "-" ++ pad2 d.month ++ "-" ++ pad2 d.day ++ "T" ++ pad2 d.hour ++ ":" ++
    pad2 d.minute ++ ":" ++ pad2 d.second ++
    (match d.tzmin with
     | none => ""
     | some off =>
       (if off < 0 then "-" else "+") ++ pad2 (off.natAbs / 60) ++ ":" ++ pad2 (off.natAbs % 60))

/-- Python string slicing `s[:n]` (by characters). -/
def pyTake (n : Nat) (s : String) : String := String.mk (s.data.take n)

/-- Python's `str.replace('Z', '+00:00')`, as applied to `created_at`. -/
def replaceZ (s : String) : String :=
  String.mk (s.data.foldr
    (fun c acc => if c == 'Z' then '+' :: '0' :: '0' :: ':' :: '0' :: '0' :: acc else c :: acc) [])

/-- Append record `r` to the bucket named `n` of the `defaultdict(list)`
model `b` (an association list in key-insertion order), creating the bucket
at the end when the key is new. -/
def addRecord {α : Type} (b : List (String × List α)) (n : String) (r : α) :
    List (String × List α) :=
  match b with
  | [] => [(n, [r])]
  | (k, l) :: rest => if k = n then (k, l ++ [r]) :: rest else (k, l) :: addRecord rest n r

/-- First-match association-list lookup with default `[]`, the model of
`some_dict.get(name, [])`. -/
def lookupD {α : Type} : List (String × List α) → String → List α
  | [], _ => []
  | (k, v) :: r, n => if k = n then v else lookupD r n

/-- The bucket name `analyze_prs` resolves for one pull request: detected
name from title, else from body, else `"<Kw> Initiative"` from the first
element of `list(keywords)` (the linearization `pick` of the keyword set),
else `"Other Work"`. -/
def prName (pick : List String → List String) (cfg : List (String × List String))
    (pr : PRRec) : String :=
  let keywords := extract_keywords cfg (pr.title ++ " " ++ pr.body)
  match detect_project_name pr.title <|> detect_project_name pr.body with
  | some n => n
  | none =>
    match pick keywords with
    | k :: _ => pyTitle k ++ " Initiative"
    | [] => "Other Work"

/-- The bucket name `analyze_calendar_events` resolves for one event, or
`none` when the record is discarded (no detected name and no keywords). -/
def evName (pick : List String → List String) (cfg : List (String × List String))
    (ev : EvRec) : Option String :=
  let keywords := extract_keywords cfg (ev.title ++ " " ++ ev.description)
  match detect_project_name ev.title <|> detect_project_name ev.description with
  | some n => some n
  | none =>
    match pick keywords with
    | k :: _ => some (pyTitle k ++ " Initiative")
    | [] => none

/-- Embedding of `ProjectAnalyzer.analyze_prs`. -/
def analyze_prs (pick : List String → List String) (cfg : List (String × List String))
    (prs : List PRRec) : List (String × List PRRec) :=
  prs.foldl (fun b pr => addRecord b (prName pick cfg pr) pr) []

/-- Embedding of `ProjectAnalyzer.analyze_calendar_events`. -/
def analyze_calendar_events (pick : List String → List String)
    (cfg : List (String × List String)) (evs : List EvRec) : List (String × List EvRec) :=
  evs.foldl (fun b ev =>
    match evName pick cfg ev with
    | some n => addRecord b n ev
    | none => b) []

/-- A display link entry of the merged project structure. -/
structure LinkRec where
  text : String
  url : String
  date : String
deriving DecidableEq

/-- The merged project entity of `merge_projects`. -/
structure Project where
  name : String
  category : String
  icon_class : String
  icon_emoji : String
  start_date : Option String
  end_date : Option String
  quarter : Option String
  description : String
  prs : List PRRec
  events : List EvRec
  github_links : List LinkRec
  calendar_links : List LinkRec
  tags : List String
deriving DecidableEq

/-- Embedding of `ProjectAnalyzer._generate_description`. -/
def generate_description (pick : List String → List String)
    (cfg : List (String × List String)) (prs : List PRRec) (evs : List EvRec)
    (project_name : String) : String :=
  let pr_titles := (prs.take 5).map PRRec.title
  let d1 : List String :=
    match pr_titles.find? (fun t => t.length > 20) with
    | some t => [t]
    | none => []
  let descriptions := ((evs.take 3).map EvRec.title).foldl
    (fun ds t => if t.length > 15 && !(ds.contains t) then ds ++ [t] else ds) d1
  match descriptions with
  | main :: _ => if main.length > 100 then pyTake 97 main ++ "..." else main
  | [] =>
    let keywords := extract_keywords cfg project_name
    if keywords.isEmpty then project_name ++ " project work throughout the year."
    else
      project_name ++ " initiative focusing on " ++
        String.intercalate ", " ((pick keywords).take 2) ++ "."

/-- The date list built by `merge_projects` for one project: every PR's
`created_at` (with `Z` replaced by `+00:00`) is parsed outside any
`try`/`except`, so a malformed value is a raised `ValueError`; every event's
`date` is parsed inside `try`/`except` and malformed values are skipped. -/
def collectDates (prs : List PRRec) (evs : List EvRec) : Except Unit (List PyDT) := do
  let prDates ← prs.foldlM
    (fun acc pr =>
      if pr.created_at = "" then pure acc
      else
        match pyFromIso (replaceZ pr.created_at) with
        | some d => pure (acc ++ [d])
        | none => .error ()) []
  pure (evs.foldl
    (fun acc ev =>
      if ev.date = "" then acc
      else
        match pyFromIso ev.date with
        | some d => acc ++ [d]
        | none => acc) prDates)

/-- `start_date = min(dates) if dates else None` and the matching `max`,
with Python's raising comparison semantics. -/
def dtRange (dates : List PyDT) : Except Unit (Option PyDT × Option PyDT) :=
  match dates with
  | [] => .ok (none, none)
  | x :: r => do
    let mn ← pyMinNE x r
    let mx ← pyMaxNE x r
    pure (some mn, some mx)

/-- The pure part of one `merge_projects` loop iteration, given the already
computed start/end datetimes. -/
def mkProject (pick : List String → List String) (cfg : List (String × List String))
    (name : String) (prs : List PRRec) (evs : List EvRec) (sd ed : Option PyDT) : Project :=
  let sample_text :=
    match prs with
    | pr :: _ => pr.title ++ " " ++ pr.body
    | [] =>
      match evs with
      | ev :: _ => ev.title ++ " " ++ ev.description
      | [] => ""
  let keywords := extract_keywords cfg sample_text
  let category := categorize_project keywords name
  { name := name
    category := category
    icon_class := get_icon_class category
    icon_emoji := get_icon_emoji category
    start_date := sd.map pyIsoformat
    end_date := ed.map pyIsoformat
    quarter := sd.map (fun d =>
      let q_num := (d.month - 1) / 3 + 1
      "Q" ++ toString q_num ++ " " ++ toString d.year)
    description := generate_description pick cfg prs evs name
    prs := prs
    events := evs
    github_links := prs.filterMap (fun pr =>
      if pr.url = "" then none
      else some { text := pr.title, url := pr.url, date := pyTake 10 pr.created_at })
    calendar_links := evs.filterMap (fun ev =>
      if ev.title = "" then none
      else some { text := ev.title, url := "#", date := pyTake 10 ev.date })
    tags := if keywords.isEmpty then [category] else pick keywords }

/-- One `merge_projects` loop iteration for a single project name. -/
def buildProject (pick : List String → List String) (cfg : List (String × List String))
    (name : String) (prs : List PRRec) (evs : List EvRec) : Except Unit Project :=
  match collectDates prs evs with
  | .error e => .error e
  | .ok dates =>
    match dtRange dates with
    | .error e => .error e
    | .ok (sd, ed) => .ok (mkProject pick cfg name prs evs sd ed)

/-- Key union in first-appearance order (any linearization of the Python
`set` union is admissible; the result is read as a mapping). -/
def dedupFirstAux : List String → List String → List String
  | _, [] => []
  | seen, k :: r =>
    if seen.contains k then dedupFirstAux seen r else k :: dedupFirstAux (k :: seen) r

/-- Embedding of `ProjectAnalyzer.merge_projects`: for each name in the
union of the two buckets' keys, skip it when both record lists are empty,
otherwise build the merged project; any raised exception aborts the whole
merge. -/
def merge_projects (pick : List String → List String) (cfg : List (String × List String))
    (prB : List (String × List PRRec)) (evB : List (String × List EvRec)) :
    Except Unit (List (String × Project)) :=
  (dedupFirstAux [] (prB.map Prod.fst ++ evB.map Prod.fst)).foldlM
    (fun acc n =>
      let prs := lookupD prB n
      let evs := lookupD evB n
      if prs.isEmpty && evs.isEmpty then pure acc
      else do
        let p ← buildProject pick cfg n prs evs
        pure (acc ++ [(n, p)]))
    []

/-- The identity linearization of the canonical keyword list (one admissible
iteration order of the Python sets). -/
def pickId : List String → List String := fun l => l

/-- Decidable equality for `Except`, to evaluate merge results in proofs. -/
instance {e a : Type} [DecidableEq e] [DecidableEq a] : DecidableEq (Except e a) := fun x y =>
  match x, y with
  | .error u, .error v =>
    if h : u = v then isTrue (congrArg Except.error h)
    else isFalse (fun hh => h (Except.error.inj hh))
  | .ok u, .ok v =>
    if h : u = v then isTrue (congrArg Except.ok h)
    else isFalse (fun hh => h (Except.ok.inj hh))
  | .error _, .ok _ => isFalse (fun hh => Except.noConfusion hh)
  | .ok _, .error _ => isFalse (fun hh => Except.noConfusion hh)

/-- The four hard-coded quarter keys of `organize_by_quarter`
(the year is the literal `2025` in the source). -/
def qKeys : List String := ["Q1 2025", "Q2 2025", "Q3 2025", "Q4 2025"]

/-- Lexicographic `<=` on character lists, Python's string comparison. -/
def lexLeCL : List Char → List Char → Bool
  | [], _ => true
  | _ :: _, [] => false
  | a :: as, b :: bs => if a == b then lexLeCL as bs else decide (a < b)

/-- Python string `<=`. -/
def strLe (a b : String) : Bool := lexLeCL a.data b.data

/-- The quarter key `organize_by_quarter` assigns to one project: the
precomputed `quarter` when it is one of the four keys; else a quarter
re-derived from a truthy, parseable `start_date` when it is one of the four
keys; else the `"Q1 2025"` default. -/
def classifyQuarter (p : Project) : String :=
  let fallback :=
    match p.start_date with
    | some s =>
      if s = "" then "Q1 2025"
      else
        match pyFromIso s with
        | some d =>
          let qk := "Q" ++ toString ((d.month - 1) / 3 + 1) ++ " " ++ toString d.year
          if qKeys.contains qk then qk else "Q1 2025"
        | none => "Q1 2025"
    | none => "Q1 2025"
  match p.quarter with
  | some q => if qKeys.contains q then q else fallback
  | none => fallback

/-- Stable insertion of a project into a list sorted ascending by the
string sort key: the new project goes after every element whose key is
less than or equal to its own. -/
def insertLe (p : Project) : List Project → List Project
  | [] => [p]
  | q :: r =>
    if strLe (q.start_date.getD "") (p.start_date.getD "") then q :: insertLe p r
    else p :: q :: r

/-- Model of `bucket.sort(key=lambda p: p.get('start_date', ''))` in CPython:
the key of a present-but-`None` `start_date` is `None` (the `''` default
only applies to a missing key, and merged projects always carry the key), and
any comparison involving `None` raises `TypeError`.  With two or more
elements every element takes part in at least one comparison, so the sort
raises exactly when the list has length at least 2 and contains a `None`
start date; otherwise it sorts stably ascending by the string key. -/
def pySortByStart (l : List Project) : Except Unit (List Project) :=
  if l.length ≥ 2 && l.any (fun p => p.start_date.isNone) then .error ()
  else .ok (l.foldl (fun acc p => insertLe p acc) [])

/-- Embedding of `ProjectAnalyzer.organize_by_quarter`: distribute the
mapping's projects (in mapping order) over the four fixed quarter buckets,
then sort each bucket; a raising sort aborts the call. -/
def organize_by_quarter (projects : List Project) : Except Unit (List (String × List Project)) :=
  qKeys.foldlM
    (fun acc k => do
      let sorted ← pySortByStart (projects.filter (fun p => classifyQuarter p == k))
      pure (acc ++ [(k, sorted)]))
    []

/-- The number of buckets of a PR grouping that contain a given record. -/
def bucketsWithPR (B : List (String × List PRRec)) (pr : PRRec) : Nat :=
  B.countP (fun e => e.2.contains pr)

/-- The number of buckets of an event grouping that contain a given record. -/
def bucketsWithEv (B : List (String × List EvRec)) (ev : EvRec) : Nat :=
  B.countP (fun e => e.2.contains ev)

/-- C3: the categorizer is the seven-rule short-circuit priority cascade: for
the keyword set containing both `security` and `ai` and any title containing
`remediation` (case-insensitively) it returns `ai` (rule 1 precedes rule 2),
and its result is always one of the seven fixed labels. -/
theorem categorize_priority_and_range :
    (∀ title : String, containsStr (lowerStr title) "remediation" = true →
      categorize_project ["security", "ai"] title = "ai") ∧
    (∀ (kws : List String) (title : String),
      categorize_project kws title ∈
        (["infra", "feature", "perf", "security", "ai", "cost", "team"] : List String)) := by
  constructor
  · intro title _h
    have hc : (["security", "ai"] : List String).contains "ai" = true := by decide
    simp [categorize_project, hc]
  · intro kws title
    simp only [categorize_project]
    split_ifs <;> decide

/-- Witness for C3 at a concrete title containing `remediation`. -/
theorem categorize_priority_witness :
    containsStr (lowerStr "Remediation work") "remediation" = true ∧
    categorize_project ["security", "ai"] "Remediation work" = "ai" :=
  ⟨by decide, categorize_priority_and_range.1 "Remediation work" (by decide)⟩

/-- C4: on `"RBAC v2 kickoff"` the detector returns `"RBAC"`, produced by
pattern 1 of the ordered pattern list (the capitalized-phrase fallback finds
nothing there), and whenever the four-pattern loop yields a name the
detector returns exactly that name (the fallback is only consulted when the
loop yields nothing). -/
theorem detect_name_priority :
    detect_project_name "RBAC v2 kickoff" = some "RBAC" ∧
    patStep (searchPos try1At "RBAC v2 kickoff".data) = some "RBAC" ∧
    fallbackCap "RBAC v2 kickoff".data = none ∧
    (∀ t n : String, tryPatterns t.data = some n → detect_project_name t = some n) := by
  refine ⟨by decide, by decide, by decide, ?_⟩
  intro t n h
  unfold detect_project_name
  by_cases he : t = ""
  · subst he
    have h0 : tryPatterns "".data = none := by decide
    rw [h0] at h
    exact Option.noConfusion h
  · simp [he, h]

/-- Witness for C4's universal part at a concrete pattern-1 match. -/
theorem detect_name_priority_witness : detect_project_name "Gamma v2 run" = some "Gamma" :=
  detect_name_priority.2.2.2 "Gamma v2 run" "Gamma" (by decide)

/-- C6 counterexample: the code maps the `team` category to `icon-team`,
not to the feature default icon identifier. -/
theorem icon_team_not_feature_default :
    get_icon_class "team" = "icon-team" ∧ get_icon_class "team" ≠ "icon-feature-default" := by
  constructor <;> decide

/-- C6 amended: the static icon table maps the seven categories to
`icon-infra`/`icon-feature`/`icon-perf`/`icon-security`/`icon-ai`/
`icon-cost`/`icon-team`, and any other category maps to the default
`icon-feature`. -/
theorem icon_map_table_and_default :
    get_icon_class "infra" = "icon-infra" ∧ get_icon_class "feature" = "icon-feature" ∧
    get_icon_class "perf" = "icon-perf" ∧ get_icon_class "security" = "icon-security" ∧
    get_icon_class "ai" = "icon-ai" ∧ get_icon_class "cost" = "icon-cost" ∧
    get_icon_class "team" = "icon-team" ∧
    ∀ c : String,
      c ∉ (["infra", "feature", "perf", "security", "ai", "cost", "team"] : List String) →
        get_icon_class c = "icon-feature" := by
  refine ⟨by decide, by decide, by decide, by decide, by decide, by decide, by decide, ?_⟩
  intro c hc
  simp only [List.mem_cons, List.not_mem_nil, or_false, not_or] at hc
  obtain ⟨n1, n2, n3, n4, n5, n6, n7⟩ := hc
  simp [get_icon_class, n1, n2, n3, n4, n5, n6, n7]

/-- Witness for C6's default clause at a category outside the table. -/
theorem icon_default_witness :
    ("zzz" : String) ∉ (["infra", "feature", "perf", "security", "ai", "cost", "team"] :
      List String) ∧ get_icon_class "zzz" = "icon-feature" :=
  ⟨by decide, icon_map_table_and_default.2.2.2.2.2.2.2 "zzz" (by decide)⟩

/-- A successful `phraseExt` only extends its word on the right, so the
first two characters of the result are those of the initial word. -/
theorem phraseExt_shape :
    ∀ (fuel : Nat) (a b : Char) (t rest w r : List Char),
      phraseExt fuel (a :: b :: t) rest = some (w, r) → ∃ t2, w = a :: b :: t2 := by
  intro fuel
  induction fuel with
  | zero =>
    intro a b t rest w r h
    exact absurd h (by simp [phraseExt])
  | succ n ih =>
    intro a b t rest w r h
    simp only [phraseExt] at h
    by_cases h1 : (rest.span isSpaceCh).1.isEmpty
    · rw [if_pos h1] at h
      by_cases h2 : boundaryOK rest
      · rw [if_pos h2] at h
        exact ⟨t, (congrArg Prod.fst (Option.some.inj h)).symm⟩
      · rw [if_neg h2] at h
        exact absurd h (by simp)
    · rw [if_neg h1] at h
      cases hsp : (rest.span isSpaceCh).2 with
      | nil =>
        rw [hsp] at h
        dsimp only at h
        by_cases h2 : boundaryOK rest
        · rw [if_pos h2] at h
          exact ⟨t, (congrArg Prod.fst (Option.some.inj h)).symm⟩
        · rw [if_neg h2] at h
          exact absurd h (by simp)
      | cons u r4 =>
        rw [hsp] at h
        dsimp only at h
        by_cases hu : u.isUpper
        · rw [if_pos hu] at h
          by_cases h3 : (r4.span Char.isLower).1.isEmpty
          · rw [if_pos h3] at h
            by_cases h2 : boundaryOK rest
            · rw [if_pos h2] at h
              exact ⟨t, (congrArg Prod.fst (Option.some.inj h)).symm⟩
            · rw [if_neg h2] at h
              exact absurd h (by simp)
          · rw [if_neg h3] at h
            cases hrec : phraseExt n
                (a :: b :: t ++ (rest.span isSpaceCh).1 ++ u :: (r4.span Char.isLower).1)
                ((r4.span Char.isLower).2) with
            | some res =>
              rw [hrec] at h
              obtain ⟨w2, r2⟩ := res
              obtain ⟨t2, ht2⟩ :=
                ih a b ((t ++ (rest.span isSpaceCh).1) ++ u :: (r4.span Char.isLower).1)
                  ((r4.span Char.isLower).2) w2 r2 hrec
              exact ⟨t2, ((congrArg Prod.fst (Option.some.inj h)).symm.trans ht2)⟩
            | none =>
              rw [hrec] at h
              by_cases h2 : boundaryOK rest
              · rw [if_pos h2] at h
                exact ⟨t, (congrArg Prod.fst (Option.some.inj h)).symm⟩
              · rw [if_neg h2] at h
                exact absurd h (by simp)
        · rw [if_neg hu] at h
          by_cases h2 : boundaryOK rest
          · rw [if_pos h2] at h
            exact ⟨t, (congrArg Prod.fst (Option.some.inj h)).symm⟩
          · rw [if_neg h2] at h
            exact absurd h (by simp)

/-- The head of a non-empty `takeWhile` result satisfies the predicate. -/
theorem takeWhile_head (p : Char → Bool) (l : List Char) (x : Char) (xs : List Char)
    (h : l.takeWhile p = x :: xs) : p x = true := by
  cases l with
  | nil => simp at h
  | cons a t =>
    rw [List.takeWhile_cons] at h
    by_cases hp : p a
    · rw [if_pos hp] at h
      exact (List.cons.inj h).1 ▸ hp
    · rw [if_neg hp] at h
      exact absurd h (by simp)

/-- Every phrase produced by `matchPhrase` starts with a character followed
by a lower-case letter. -/
theorem matchPhrase_shape (cs w r : List Char) (h : matchPhrase cs = some (w, r)) :
    ∃ a b t, w = a :: b :: t ∧ b.isLower = true := by
  cases cs with
  | nil => exact absurd h (by simp [matchPhrase])
  | cons c r0 =>
    simp only [matchPhrase] at h
    by_cases hc : c.isUpper
    · rw [if_pos hc] at h
      by_cases hl : (r0.span Char.isLower).1.isEmpty
      · rw [if_pos hl] at h
        exact absurd h (by simp)
      · rw [if_neg hl] at h
        cases hts : (r0.span Char.isLower).1 with
        | nil => rw [hts] at hl; exact absurd rfl hl
        | cons x xs =>
          rw [hts] at h
          obtain ⟨t2, ht2⟩ := phraseExt_shape _ c x xs _ w r h
          refine ⟨c, x, t2, ht2, ?_⟩
          have hsp : (r0.span Char.isLower).1 = r0.takeWhile Char.isLower :=
            congrArg Prod.fst (List.span_eq_take_drop Char.isLower r0)
          exact takeWhile_head Char.isLower r0 x xs (hsp ▸ hts)
    · rw [if_neg hc] at h
      exact absurd h (by simp)

/-- Every phrase the `findall` scan emits starts with a character followed
by a lower-case letter. -/
theorem findAllCapAux_shape :
    ∀ (fuel : Nat) (prev : Bool) (cs : List Char) (s : String),
      s ∈ findAllCapAux fuel prev cs →
      ∃ a b t, s.data = a :: b :: t ∧ b.isLower = true := by
  intro fuel
  induction fuel with
  | zero =>
    intro prev cs s h
    exact absurd h (by simp [findAllCapAux])
  | succ n ih =>
    intro prev cs s h
    cases cs with
    | nil => exact absurd h (by simp [findAllCapAux])
    | cons c rest =>
      simp only [findAllCapAux] at h
      by_cases hp : prev
      · rw [if_pos hp] at h
        exact ih _ _ _ h
      · rw [if_neg hp] at h
        cases hm : matchPhrase (c :: rest) with
        | some pr =>
          rw [hm] at h
          obtain ⟨w2, rest2⟩ := pr
          rcases List.mem_cons.mp h with hh | hh
          · obtain ⟨a, b, t, ht, hb⟩ := matchPhrase_shape _ w2 rest2 hm
            exact ⟨a, b, t, by rw [hh]; exact ht, hb⟩
          · exact ih _ _ _ hh
        | none =>
          rw [hm] at h
          exact ih _ _ _ h

/-- A word returned by the selection loop is one of the candidates. -/
theorem firstGoodWord_mem :
    ∀ (l : List String) (s : String), firstGoodWord l = some s → s ∈ l := by
  intro l
  induction l with
  | nil =>
    intro s h
    exact absurd h (by simp [firstGoodWord])
  | cons w ws ih =>
    intro s h
    simp only [firstGoodWord] at h
    by_cases hc : (decide (w.length > 3) && !(stopWords.contains (lowerStr w))) = true
    · rw [if_pos hc] at h
      have h' : w = s := Option.some.inj h
      rw [← h']
      exact List.mem_cons_self w ws
    · rw [if_neg hc] at h
      exact List.mem_cons_of_mem w (ih s h)

/-- C10: the capitalized-phrase fallback only recognizes words made of one
upper-case letter followed by at least one lower-case letter; consequently,
whenever the four regex patterns all fail and the detector still returns a
name, that name contains a lower-case letter and in particular is never the
all-uppercase token `"RBAC"`. -/
theorem fallback_never_allcaps :
    ∀ t s : String, tryPatterns t.data = none → detect_project_name t = some s →
      s.data.any Char.isLower = true ∧ s ≠ "RBAC" := by
  intro t s hpat hdet
  unfold detect_project_name at hdet
  by_cases he : t = ""
  · rw [if_pos he] at hdet
    exact absurd hdet (by simp)
  · rw [if_neg he] at hdet
    rw [hpat, Option.none_orElse] at hdet
    have hmem : s ∈ capWords t.data := List.take_subset 3 _ (firstGoodWord_mem _ _ hdet)
    obtain ⟨a, b, t2, hdata, hb⟩ := findAllCapAux_shape _ _ _ _ hmem
    have hany : s.data.any Char.isLower = true := by
      rw [hdata]
      simp [List.any_cons, hb]
    refine ⟨hany, fun hs => ?_⟩
    rw [hs] at hany
    exact absurd hany (by decide)

/-- Witness for C10 at a text where all four patterns fail and the fallback
fires. -/
theorem fallback_never_allcaps_witness :
    "Alpha Beta".data.any Char.isLower = true ∧ "Alpha Beta" ≠ "RBAC" :=
  fallback_never_allcaps "the Alpha Beta" "Alpha Beta" (by decide) (by decide)

/-- C1 (refutation / code bug): on the analyzer module's own test data — the
PR `"RBAC V2 Implementation"` with `created_at` `"2025-01-15T10:00:00Z"` and
the event `"RBAC kickoff meeting"` with `date` `"2025-01-10"`, both grouped
under the detected name `"RBAC"` — the merge raises (`min` compares an
offset-aware PR datetime with an offset-naive event datetime); and a PR with
an unparseable `created_at` raises as well, since the PR parse is outside
any `try`/`except`. -/
theorem merge_raises_on_timestamps :
    merge_projects pickId []
        (analyze_prs pickId []
          [⟨"RBAC V2 Implementation", "Role-based access control", "2025-01-15T10:00:00Z",
            "https://github.com/test/pr/1"⟩])
        (analyze_calendar_events pickId [] [⟨"RBAC kickoff meeting", "", "2025-01-10"⟩]) =
      .error () ∧
    merge_projects pickId [] [("X", [⟨"t", "b", "garbage", "u"⟩])] [] = .error () := by
  constructor <;> decide

/-- C2 (refutation / code bug): a merged mapping holding a dated Q1-2025
project and a project with `start_date` `None` (here produced by an event
whose `date` is unparseable) makes `organize_by_quarter` raise: both land in
the `"Q1 2025"` bucket and the sort key `p.get('start_date', '')` is `None`
for the present-but-`None` field, so the sort compares `None` with `str`. -/
theorem organize_raises_on_none_start :
    (merge_projects pickId [] [("A", [⟨"x", "", "2025-01-15T10:00:00Z", ""⟩])]
        [("B", [⟨"zzz", "", "bad-date"⟩])]).bind
      (fun m => organize_by_quarter (m.map Prod.snd)) = .error () := by decide

/-- A successful `buildProject` decomposes into a successful date collection,
a successful range computation, and the pure `mkProject` construction. -/
theorem buildProject_ok_decomp (pick : List String → List String)
    (cfg : List (String × List String)) (name : String) (prs : List PRRec) (evs : List EvRec)
    (p : Project) (h : buildProject pick cfg name prs evs = .ok p) :
    ∃ dates sd ed, collectDates prs evs = .ok dates ∧ dtRange dates = .ok (sd, ed) ∧
      p = mkProject pick cfg name prs evs sd ed := by
  unfold buildProject at h
  cases hc : collectDates prs evs with
  | error e =>
    rw [hc] at h
    dsimp only at h
    exact Except.noConfusion h
  | ok dates =>
    rw [hc] at h
    dsimp only at h
    cases hr : dtRange dates with
    | error e =>
      rw [hr] at h
      dsimp only at h
      exact Except.noConfusion h
    | ok sde =>
      obtain ⟨sd, ed⟩ := sde
      rw [hr] at h
      dsimp only at h
      exact ⟨dates, sd, ed, rfl, hr, (Except.ok.inj h).symm⟩

/-- Invariant propagation through the `merge_projects` fold: a property that
holds of the accumulator and of every pair the loop appends holds of every
pair of the result mapping. -/
theorem mergeFold_prop (pick : List String → List String) (cfg : List (String × List String))
    (prB : List (String × List PRRec)) (evB : List (String × List EvRec))
    (P : String × Project → Prop)
    (hstep : ∀ n p, ¬((lookupD prB n).isEmpty && (lookupD evB n).isEmpty) = true →
      buildProject pick cfg n (lookupD prB n) (lookupD evB n) = .ok p → P (n, p)) :
    ∀ (names : List String) (acc m : List (String × Project)),
      (∀ kp ∈ acc, P kp) →
      names.foldlM (fun acc n =>
        let prs := lookupD prB n
        let evs := lookupD evB n
        if prs.isEmpty && evs.isEmpty then pure acc
        else do
          let p ← buildProject pick cfg n prs evs
          pure (acc ++ [(n, p)])) acc = .ok m →
      ∀ kp ∈ m, P kp := by
  intro names
  induction names with
  | nil =>
    intro acc m hacc h
    rw [List.foldlM_nil] at h
    have hm : acc = m := Except.ok.inj h
    exact hm ▸ hacc
  | cons n ns ih =>
    intro acc m hacc h
    rw [List.foldlM_cons] at h
    by_cases hg : ((lookupD prB n).isEmpty && (lookupD evB n).isEmpty) = true
    · rw [if_pos hg] at h
      exact ih acc m hacc h
    · rw [if_neg hg] at h
      cases hb : buildProject pick cfg n (lookupD prB n) (lookupD evB n) with
      | error e =>
        rw [hb] at h
        exact absurd h (by cases e; exact fun hh => Except.noConfusion hh)
      | ok p =>
        rw [hb] at h
        refine ih (acc ++ [(n, p)]) m ?_ h
        intro kp hkp
        rcases List.mem_append.mp hkp with hk | hk
        · exact hacc kp hk
        · rw [List.mem_singleton] at hk
          exact hk ▸ hstep n p hg hb

/-- C8: every project present in a successful `merge_projects` result has a
non-empty union of contributing records — its PR list and event list are
never both empty. -/
theorem merged_projects_nonempty_sources (pick : List String → List String)
    (cfg : List (String × List String)) (prB : List (String × List PRRec))
    (evB : List (String × List EvRec)) (m : List (String × Project))
    (h : merge_projects pick cfg prB evB = .ok m) :
    ∀ kp ∈ m, 0 < kp.2.prs.length + kp.2.events.length := by
  refine mergeFold_prop pick cfg prB evB
    (fun kp => 0 < kp.2.prs.length + kp.2.events.length) ?_ _ [] m (by simp) h
  intro n p hg hb
  obtain ⟨dates, sd, ed, _, _, hp⟩ := buildProject_ok_decomp pick cfg n _ _ p hb
  subst hp
  show 0 < (lookupD prB n).length + (lookupD evB n).length
  by_cases hpr : lookupD prB n = []
  · by_cases hev : lookupD evB n = []
    · exact absurd (by rw [hpr, hev]; rfl) hg
    · have hl : 0 < (lookupD evB n).length := List.length_pos.mpr hev
      omega
  · have hl : 0 < (lookupD prB n).length := List.length_pos.mpr hpr
    omega

/-- Witness for C8 on a one-project merge. -/
theorem merged_projects_nonempty_witness :
    0 < ([⟨"x", "", "2025-01-15T10:00:00Z", ""⟩] : List PRRec).length +
      ([] : List EvRec).length :=
  merged_projects_nonempty_sources pickId [] [("A", [⟨"x", "", "2025-01-15T10:00:00Z", ""⟩])] []
    [("A",
      { name := "A", category := "feature", icon_class := "icon-feature",
        icon_emoji := get_icon_emoji "feature",
        start_date := some "2025-01-15T10:00:00+00:00",
        end_date := some "2025-01-15T10:00:00+00:00",
        quarter := some "Q1 2025",
        description := "A project work throughout the year.",
        prs := [⟨"x", "", "2025-01-15T10:00:00Z", ""⟩], events := [],
        github_links := [], calendar_links := [], tags := ["feature"] })]
    (by decide)
    ("A",
      { name := "A", category := "feature", icon_class := "icon-feature",
        icon_emoji := get_icon_emoji "feature",
        start_date := some "2025-01-15T10:00:00+00:00",
        end_date := some "2025-01-15T10:00:00+00:00",
        quarter := some "Q1 2025",
        description := "A project work throughout the year.",
        prs := [⟨"x", "", "2025-01-15T10:00:00Z", ""⟩], events := [],
        github_links := [], calendar_links := [], tags := ["feature"] })
    (by decide)

/-- C7: for every project of a successful merge, `quarter` is derived from
the start datetime only, as `"Q<n> <year>"` with `n = (month - 1) / 3 + 1`
by exact integer division, and a `None` start yields a `None` quarter (the
`Option.map` covers both cases); `start_date` is that datetime's isoformat. -/
theorem quarter_from_start_month (pick : List String → List String)
    (cfg : List (String × List String)) (prB : List (String × List PRRec))
    (evB : List (String × List EvRec)) (m : List (String × Project))
    (h : merge_projects pick cfg prB evB = .ok m) :
    ∀ kp ∈ m, ∀ (dates : List PyDT) (sd ed : Option PyDT),
      collectDates kp.2.prs kp.2.events = .ok dates → dtRange dates = .ok (sd, ed) →
      kp.2.quarter =
        sd.map (fun d => "Q" ++ toString ((d.month - 1) / 3 + 1) ++ " " ++ toString d.year) ∧
      kp.2.start_date = sd.map pyIsoformat := by
  refine mergeFold_prop pick cfg prB evB
    (fun kp => ∀ (dates : List PyDT) (sd ed : Option PyDT),
      collectDates kp.2.prs kp.2.events = .ok dates → dtRange dates = .ok (sd, ed) →
      kp.2.quarter =
        sd.map (fun d => "Q" ++ toString ((d.month - 1) / 3 + 1) ++ " " ++ toString d.year) ∧
      kp.2.start_date = sd.map pyIsoformat) ?_ _ [] m (by simp) h
  intro n p hg hb dates sd ed hcd hdr
  obtain ⟨dates0, sd0, ed0, hc0, hr0, hp⟩ := buildProject_ok_decomp pick cfg n _ _ p hb
  subst hp
  have hdd : dates0 = dates := Except.ok.inj (hc0.symm.trans hcd)
  rw [hdd] at hr0
  have hsd : sd0 = sd := congrArg Prod.fst (Except.ok.inj (hr0.symm.trans hdr))
  rw [← hsd]
  exact ⟨rfl, rfl⟩

/-- Witness for C7 on a one-project merge whose start is 2025-01-15. -/
theorem quarter_from_start_month_witness :
    (some "Q1 2025" : Option String) =
      some ("Q" ++ toString ((1 - 1) / 3 + 1) ++ " " ++ toString 2025) ∧
    (some "2025-01-15T10:00:00+00:00" : Option String) =
      some (pyIsoformat ⟨2025, 1, 15, 10, 0, 0, some 0⟩) :=
  quarter_from_start_month pickId [] [("A", [⟨"x", "", "2025-01-15T10:00:00Z", ""⟩])] []
    [("A",
      { name := "A", category := "feature", icon_class := "icon-feature",
        icon_emoji := get_icon_emoji "feature",
        start_date := some "2025-01-15T10:00:00+00:00",
        end_date := some "2025-01-15T10:00:00+00:00",
        quarter := some "Q1 2025",
        description := "A project work throughout the year.",
        prs := [⟨"x", "", "2025-01-15T10:00:00Z", ""⟩], events := [],
        github_links := [], calendar_links := [], tags := ["feature"] })]
    (by decide)
    ("A",
      { name := "A", category := "feature", icon_class := "icon-feature",
        icon_emoji := get_icon_emoji "feature",
        start_date := some "2025-01-15T10:00:00+00:00",
        end_date := some "2025-01-15T10:00:00+00:00",
        quarter := some "Q1 2025",
        description := "A project work throughout the year.",
        prs := [⟨"x", "", "2025-01-15T10:00:00Z", ""⟩], events := [],
        github_links := [], calendar_links := [], tags := ["feature"] })
    (by decide)
    [⟨2025, 1, 15, 10, 0, 0, some 0⟩] (some ⟨2025, 1, 15, 10, 0, 0, some 0⟩)
    (some ⟨2025, 1, 15, 10, 0, 0, some 0⟩) (by decide) (by decide)

/-- `addRecord` preserves a per-record tagging discipline: if every stored
record is tagged with its bucket key and the new record is tagged with the
target key, the extended buckets are still tagged consistently. -/
theorem addRecord_tags {α : Type} (g : α → String → Prop) :
    ∀ (b : List (String × List α)) (n : String) (r : α),
      (∀ e ∈ b, ∀ x ∈ e.2, g x e.1) → g r n →
      ∀ e ∈ addRecord b n r, ∀ x ∈ e.2, g x e.1 := by
  intro b
  induction b with
  | nil =>
    intro n r _ hr e he x hx
    simp only [addRecord, List.mem_singleton] at he
    subst he
    rw [List.mem_singleton] at hx
    exact hx ▸ hr
  | cons hd tl ih =>
    obtain ⟨k, l⟩ := hd
    intro n r hb hr e he x hx
    simp only [addRecord] at he
    by_cases hk : k = n
    · subst hk
      rw [if_pos rfl] at he
      rcases List.mem_cons.mp he with rfl | hmem
      · rcases List.mem_append.mp hx with hx1 | hx1
        · exact hb (k, l) (List.mem_cons_self _ _) x hx1
        · rw [List.mem_singleton] at hx1
          rw [hx1]
          exact hr
      · exact hb e (List.mem_cons_of_mem _ hmem) x hx
    · rw [if_neg hk] at he
      rcases List.mem_cons.mp he with rfl | hmem
      · exact hb (k, l) (List.mem_cons_self _ _) x hx
      · exact ih n r (fun e2 he2 => hb e2 (List.mem_cons_of_mem _ he2)) hr e hmem x hx

/-- The keys of `addRecord` are unchanged when the key is present and gain
the new key at the end otherwise. -/
theorem addRecord_keys {α : Type} :
    ∀ (b : List (String × List α)) (n : String) (r : α),
      (n ∈ b.map Prod.fst ∧ (addRecord b n r).map Prod.fst = b.map Prod.fst) ∨
      (n ∉ b.map Prod.fst ∧ (addRecord b n r).map Prod.fst = b.map Prod.fst ++ [n]) := by
  intro b
  induction b with
  | nil =>
    intro n r
    exact Or.inr ⟨by simp, by simp [addRecord]⟩
  | cons hd tl ih =>
    obtain ⟨k, l⟩ := hd
    intro n r
    by_cases hk : k = n
    · exact Or.inl ⟨by simp [hk], by simp [addRecord, hk]⟩
    · rcases ih n r with ⟨h1, h2⟩ | ⟨h1, h2⟩
      · exact Or.inl ⟨by simp [h1], by simp [addRecord, hk, h2]⟩
      · refine Or.inr ⟨?_, by simp [addRecord, hk, h2]⟩
        simp only [List.map_cons, List.mem_cons]
        rintro (h | h)
        · exact hk h.symm
        · exact h1 h

/-- `addRecord` preserves key `Nodup`. -/
theorem addRecord_nodup {α : Type} (b : List (String × List α)) (n : String) (r : α)
    (h : (b.map Prod.fst).Nodup) : ((addRecord b n r).map Prod.fst).Nodup := by
  rcases addRecord_keys b n r with ⟨_, hk⟩ | ⟨hn, hk⟩
  · rw [hk]; exact h
  · rw [hk]
    simp [List.nodup_append, h, hn]

/-- The new record is present in its target bucket after `addRecord`. -/
theorem addRecord_self {α : Type} :
    ∀ (b : List (String × List α)) (n : String) (r : α),
      ∃ l, (n, l) ∈ addRecord b n r ∧ r ∈ l := by
  intro b
  induction b with
  | nil =>
    intro n r
    exact ⟨[r], by simp [addRecord], by simp⟩
  | cons hd tl ih =>
    obtain ⟨k, l⟩ := hd
    intro n r
    by_cases hk : k = n
    · subst hk
      exact ⟨l ++ [r], by simp [addRecord], by simp⟩
    · obtain ⟨l2, hl2, hr2⟩ := ih n r
      exact ⟨l2, by simp only [addRecord, if_neg hk]; exact List.mem_cons_of_mem _ hl2, hr2⟩

/-- Records already stored stay in a bucket with the same key after
`addRecord`. -/
theorem addRecord_mono {α : Type} :
    ∀ (b : List (String × List α)) (n : String) (r x : α) (k : String) (l : List α),
      (k, l) ∈ b → x ∈ l → ∃ l2, (k, l2) ∈ addRecord b n r ∧ x ∈ l2 := by
  intro b
  induction b with
  | nil =>
    intro n r x k l hl
    exact absurd hl (List.not_mem_nil _)
  | cons hd tl ih =>
    obtain ⟨k0, l0⟩ := hd
    intro n r x k l hl hx
    by_cases hk : k0 = n
    · rcases List.mem_cons.mp hl with heq | hmem
      · injection heq with h1 h2
        subst h1
        subst h2
        refine ⟨l ++ [r], ?_, List.mem_append_left _ hx⟩
        simp only [addRecord, if_pos hk]
        exact List.mem_cons_self _ _
      · refine ⟨l, ?_, hx⟩
        simp only [addRecord, if_pos hk]
        exact List.mem_cons_of_mem _ hmem
    · rcases List.mem_cons.mp hl with heq | hmem
      · injection heq with h1 h2
        subst h1
        subst h2
        refine ⟨l, ?_, hx⟩
        simp only [addRecord, if_neg hk]
        exact List.mem_cons_self _ _
      · obtain ⟨l2, hl2, hx2⟩ := ih n r x k l hmem hx
        refine ⟨l2, ?_, hx2⟩
        simp only [addRecord, if_neg hk]
        exact List.mem_cons_of_mem _ hl2

/-- A `Nodup` list with a member satisfying `p` whose satisfier is unique
has `countP p = 1`. -/
theorem countP_eq_one_of_unique {β : Type} (p : β → Bool) :
    ∀ (l : List β), l.Nodup → ∀ b0 ∈ l, p b0 = true → (∀ b1 ∈ l, p b1 = true → b1 = b0) →
      l.countP p = 1 := by
  intro l
  induction l with
  | nil =>
    intro _ b0 h
    exact absurd h (List.not_mem_nil b0)
  | cons a t ih =>
    intro hnd b0 hb0 hp huniq
    rcases List.mem_cons.mp hb0 with rfl | hmem
    · rw [List.countP_cons, hp, if_pos rfl]
      have ht : t.countP p = 0 := by
        rw [List.countP_eq_zero]
        intro b1 hb1 hpb1
        have hb1b0 := huniq b1 (List.mem_cons_of_mem b0 hb1) hpb1
        exact (List.nodup_cons.mp hnd).1 (hb1b0 ▸ hb1)
      rw [ht]
    · have hpa : p a = false := by
        cases hpav : p a with
        | false => rfl
        | true =>
          have ha := huniq a (List.mem_cons_self a t) hpav
          exact absurd (ha ▸ hmem) (List.nodup_cons.mp hnd).1
      rw [List.countP_cons, hpa]
      simp only [Bool.false_eq_true, if_false, Nat.add_zero]
      exact ih (List.nodup_cons.mp hnd).2 b0 hmem hp
        (fun b1 hb1 hpb1 => huniq b1 (List.mem_cons_of_mem a hb1) hpb1)

/-- Invariants of the `defaultdict` grouping fold: keys stay `Nodup`, every
stored record resolves to its bucket key, every processed record is present
in the bucket of its resolved name, and existing entries persist. -/
theorem foldl_addRecord_inv {α : Type} (f : α → String) :
    ∀ (xs : List α) (b : List (String × List α)),
      (b.map Prod.fst).Nodup → (∀ e ∈ b, ∀ x ∈ e.2, f x = e.1) →
      (((xs.foldl (fun b x => addRecord b (f x) x) b).map Prod.fst).Nodup ∧
       (∀ e ∈ xs.foldl (fun b x => addRecord b (f x) x) b, ∀ x ∈ e.2, f x = e.1) ∧
       (∀ x0 ∈ xs, ∃ l, (f x0, l) ∈ xs.foldl (fun b x => addRecord b (f x) x) b ∧ x0 ∈ l) ∧
       (∀ (k : String) (x0 : α), (∃ l, (k, l) ∈ b ∧ x0 ∈ l) →
         ∃ l, (k, l) ∈ xs.foldl (fun b x => addRecord b (f x) x) b ∧ x0 ∈ l)) := by
  intro xs
  induction xs with
  | nil =>
    intro b h1 h2
    exact ⟨h1, h2, by simp, fun k x0 h => h⟩
  | cons x xs ih =>
    intro b h1 h2
    simp only [List.foldl_cons]
    obtain ⟨i1, i2, i3, i4⟩ := ih (addRecord b (f x) x) (addRecord_nodup b (f x) x h1)
      (addRecord_tags (fun y k => f y = k) b (f x) x h2 rfl)
    refine ⟨i1, i2, ?_, ?_⟩
    · intro x0 hx0
      rcases List.mem_cons.mp hx0 with rfl | hmem
      · obtain ⟨l, hl, hxl⟩ := addRecord_self b (f x0) x0
        exact i4 (f x0) x0 ⟨l, hl, hxl⟩
      · exact i3 x0 hmem
    · rintro k x0 ⟨l, hl, hxl⟩
      obtain ⟨l2, hl2, hx2⟩ := addRecord_mono b (f x) x x0 k l hl hxl
      exact i4 k x0 ⟨l2, hl2, hx2⟩

/-- Every record stored by the calendar-event grouping fold resolves via
`evName` to its bucket key (in particular it is not a dropped record). -/
theorem foldl_evAdd_tags (pick : List String → List String)
    (cfg : List (String × List String)) :
    ∀ (evs : List EvRec) (b : List (String × List EvRec)),
      (∀ e ∈ b, ∀ x ∈ e.2, evName pick cfg x = some e.1) →
      ∀ e ∈ evs.foldl (fun b ev =>
          match evName pick cfg ev with
          | some n => addRecord b n ev
          | none => b) b,
        ∀ x ∈ e.2, evName pick cfg x = some e.1 := by
  intro evs
  induction evs with
  | nil =>
    intro b hb
    simpa using hb
  | cons ev evs ih =>
    intro b hb
    simp only [List.foldl_cons]
    cases hn : evName pick cfg ev with
    | some n =>
      exact ih (addRecord b n ev)
        (addRecord_tags (fun y k => evName pick cfg y = some k) b n ev hb hn)
    | none =>
      exact ih b hb

/-- C5: the grouper resolves each record's bucket by detected name, else
keyword-initiative, else (PRs only) `"Other Work"`; consequently every PR of
the input lies in exactly one bucket of `analyze_prs` (PRs are never
dropped), while a calendar event with no detectable name and no keywords
lies in no bucket of `analyze_calendar_events` (it is discarded).  `pick`
ranges over linearizations of the keyword set. -/
theorem grouper_pr_total_event_drop (pick : List String → List String)
    (cfg : List (String × List String)) (prs : List PRRec) (evs : List EvRec)
    (hpick : ∀ l : List String, (pick l).Perm l) :
    (∀ pr ∈ prs, bucketsWithPR (analyze_prs pick cfg prs) pr = 1) ∧
    (∀ ev ∈ evs, detect_project_name ev.title = none →
      detect_project_name ev.description = none →
      extract_keywords cfg (ev.title ++ " " ++ ev.description) = [] →
      bucketsWithEv (analyze_calendar_events pick cfg evs) ev = 0) := by
  constructor
  · intro pr hpr
    obtain ⟨i1, i2, i3, _⟩ := foldl_addRecord_inv (prName pick cfg) prs [] (by simp) (by simp)
    obtain ⟨l, hl, hxl⟩ := i3 pr hpr
    unfold bucketsWithPR
    refine countP_eq_one_of_unique _ _ (List.Nodup.of_map Prod.fst i1)
      (prName pick cfg pr, l) hl ?_ ?_
    · exact List.elem_eq_true_of_mem hxl
    · intro b1 hb1 hpb1
      have hmem : pr ∈ b1.2 := List.mem_of_elem_eq_true hpb1
      have hkey : prName pick cfg pr = b1.1 := i2 b1 hb1 pr hmem
      exact List.inj_on_of_nodup_map i1 hb1 hl (by rw [← hkey])
  · intro ev hev hdt hdd hkw
    have hpick0 : pick [] = [] := (hpick []).eq_nil
    have hname : evName pick cfg ev = none := by
      simp only [evName, hdt, hdd, Option.none_orElse, hkw, hpick0]
    unfold bucketsWithEv
    rw [List.countP_eq_zero]
    intro e he hpe
    have hmem : ev ∈ e.2 := List.mem_of_elem_eq_true hpe
    have htag := foldl_evAdd_tags pick cfg evs [] (by simp) e he ev hmem
    rw [hname] at htag
    exact Option.noConfusion htag

/-- Witness for C5: the `"standup"` PR lands in exactly one bucket (namely
`"Other Work"`), while the `"standup"` event with empty keyword
configuration is dropped. -/
theorem grouper_pr_total_event_drop_witness :
    bucketsWithPR (analyze_prs pickId [] [⟨"standup", "", "", ""⟩]) ⟨"standup", "", "", ""⟩ = 1 ∧
    bucketsWithEv (analyze_calendar_events pickId [] [⟨"standup", "", ""⟩]) ⟨"standup", "", ""⟩
      = 0 :=
  ⟨(grouper_pr_total_event_drop pickId [] [⟨"standup", "", "", ""⟩] [⟨"standup", "", ""⟩]
      (fun l => List.Perm.refl l)).1 ⟨"standup", "", "", ""⟩ (by decide),
   (grouper_pr_total_event_drop pickId [] [⟨"standup", "", "", ""⟩] [⟨"standup", "", ""⟩]
      (fun l => List.Perm.refl l)).2 ⟨"standup", "", ""⟩ (by decide) (by decide) (by decide)
      (by decide)⟩

/-- C9 counterexample: two admissible linearizations of the keyword set —
identity and reversal of the canonical order, both permutations of the set —
give different synthesized `"<Kw> Initiative"` bucket names for the same
input, so the grouping is not invariant under the set iteration order of
`list(keywords)[0]`. -/
theorem initiative_name_depends_on_set_order :
    (List.reverse ["alpha", "beta"]).Perm ["alpha", "beta"] ∧
    analyze_prs pickId [("alpha", ["aa"]), ("beta", ["bb"])] [⟨"aa bb", "", "", ""⟩] =
      [("Alpha Initiative", [⟨"aa bb", "", "", ""⟩])] ∧
    analyze_prs List.reverse [("alpha", ["aa"]), ("beta", ["bb"])] [⟨"aa bb", "", "", ""⟩] =
      [("Beta Initiative", [⟨"aa bb", "", "", ""⟩])] ∧
    analyze_prs pickId [("alpha", ["aa"]), ("beta", ["bb"])] [⟨"aa bb", "", "", ""⟩] ≠
      analyze_prs List.reverse [("alpha", ["aa"]), ("beta", ["bb"])] [⟨"aa bb", "", "", ""⟩] := by
  refine ⟨List.reverse_perm _, by decide, by decide, by decide⟩

/-- Two valid linearizations agree on sets of at most one element. -/
theorem pick_agree_of_small (pick1 pick2 : List String → List String)
    (h1 : ∀ l, (pick1 l).Perm l) (h2 : ∀ l, (pick2 l).Perm l) (l : List String)
    (hl : l.length ≤ 1) : pick1 l = pick2 l := by
  cases l with
  | nil => rw [(h1 []).eq_nil, (h2 []).eq_nil]
  | cons k t =>
    cases t with
    | nil => rw [List.perm_singleton.mp (h1 [k]), List.perm_singleton.mp (h2 [k])]
    | cons a b => simp at hl

/-- Grouping folds with pointwise-equal name resolvers coincide. -/
theorem foldl_congr_names {α : Type} (f1 f2 : α → String) :
    ∀ (xs : List α) (b : List (String × List α)), (∀ x ∈ xs, f1 x = f2 x) →
      xs.foldl (fun b x => addRecord b (f1 x) x) b =
        xs.foldl (fun b x => addRecord b (f2 x) x) b := by
  intro xs
  induction xs with
  | nil => intro b _; rfl
  | cons x xs ih =>
    intro b hf
    simp only [List.foldl_cons]
    rw [hf x (List.mem_cons_self x xs)]
    exact ih _ (fun y hy => hf y (List.mem_cons_of_mem x hy))

/-- Event grouping folds with pointwise-equal optional resolvers coincide. -/
theorem foldl_congr_evnames (g1 g2 : EvRec → Option String) :
    ∀ (evs : List EvRec) (b : List (String × List EvRec)), (∀ ev ∈ evs, g1 ev = g2 ev) →
      evs.foldl (fun b ev =>
        match g1 ev with
        | some n => addRecord b n ev
        | none => b) b =
      evs.foldl (fun b ev =>
        match g2 ev with
        | some n => addRecord b n ev
        | none => b) b := by
  intro evs
  induction evs with
  | nil => intro b _; rfl
  | cons ev evs ih =>
    intro b hf
    simp only [List.foldl_cons]
    rw [hf ev (List.mem_cons_self ev evs)]
    exact ih _ (fun y hy => hf y (List.mem_cons_of_mem ev hy))

/-- C9 amended: the grouping stage is a pure function of the records, the
keyword configuration, and the set-iteration order; for any two valid
iteration orders the resulting buckets coincide whenever each record's
extracted keyword set has at most one element (with two or more keyword
categories and no detected name, the synthesized Initiative name follows
the iteration order, which Python does not fix across runs). -/
theorem grouping_deterministic_fixed_order (pick1 pick2 : List String → List String)
    (cfg : List (String × List String)) (prs : List PRRec) (evs : List EvRec)
    (h1 : ∀ l, (pick1 l).Perm l) (h2 : ∀ l, (pick2 l).Perm l)
    (hkw : ∀ pr ∈ prs, (extract_keywords cfg (pr.title ++ " " ++ pr.body)).length ≤ 1)
    (hke : ∀ ev ∈ evs, (extract_keywords cfg (ev.title ++ " " ++ ev.description)).length ≤ 1) :
    analyze_prs pick1 cfg prs = analyze_prs pick2 cfg prs ∧
    analyze_calendar_events pick1 cfg evs = analyze_calendar_events pick2 cfg evs := by
  constructor
  · refine foldl_congr_names (prName pick1 cfg) (prName pick2 cfg) prs [] ?_
    intro pr hpr
    simp only [prName, pick_agree_of_small pick1 pick2 h1 h2 _ (hkw pr hpr)]
  · refine foldl_congr_evnames (evName pick1 cfg) (evName pick2 cfg) evs [] ?_
    intro ev hev
    simp only [evName, pick_agree_of_small pick1 pick2 h1 h2 _ (hke ev hev)]

/-- Witness for C9's amended determinism on single-keyword records. -/
theorem grouping_deterministic_witness :
    analyze_prs pickId [("alpha", ["aa"])] [⟨"aa", "", "", ""⟩] =
      analyze_prs List.reverse [("alpha", ["aa"])] [⟨"aa", "", "", ""⟩] ∧
    analyze_calendar_events pickId [("alpha", ["aa"])] [⟨"aa", "", ""⟩] =
      analyze_calendar_events List.reverse [("alpha", ["aa"])] [⟨"aa", "", ""⟩] :=
  grouping_deterministic_fixed_order pickId List.reverse [("alpha", ["aa"])]
    [⟨"aa", "", "", ""⟩] [⟨"aa", "", ""⟩] (fun l => List.Perm.refl l)
    (fun l => List.reverse_perm l) (by decide) (by decide)

/-- Spot checks of the embedded name detector against CPython `re.search` and `re.findall` results on concrete inputs, plus the `str.title` model. -/
theorem detector_model_checks :
    (detect_project_name "RBAC v2 kickoff" = some "RBAC") ∧
    (detect_project_name "RBAC V2 Implementation" = some "RBAC") ∧
    (detect_project_name "RBAC kickoff meeting" = some "RBAC") ∧
    (detect_project_name "Helm Drift Detection" = some "Helm Drift Detection") ∧
    (detect_project_name "Helm sync" = some "Helm") ∧
    (detect_project_name "the Alpha Beta" = some "Alpha Beta") ∧
    (detect_project_name "standup" = none) ∧
    (detect_project_name "aa bb" = none) ∧
    (detect_project_name "meeting: Api Rollout" = some "Api Rollout") ∧
    (detect_project_name "v2 v2" = none) ∧
    (detect_project_name "xv2 v2" = some "xv2") ∧
    (detect_project_name "a v2" = none) ∧
    (detect_project_name "sync: Alpha   " = some "Alpha") ∧
    (detect_project_name "sync: A." = none) ∧
    (detect_project_name "ab v2 Monitoring effort" = some "Monitoring") ∧
    (detect_project_name "phase  12 go" = none) ∧
    (detect_project_name "Phase2" = none) ∧
    (detect_project_name "The Big Review for Q" = some "The Big Review") ∧
    (detect_project_name "done by Someone" = some "done") ∧
    (detect_project_name "Xy by z" = none) ∧
    (detect_project_name "review:ok" = none) ∧
    (detect_project_name "review: ok stuff" = some "ok stuff") ∧
    (detect_project_name "kickoff: the end" = some "the end") ∧
    (detect_project_name "Ab CdE with Fg" = some "CdE") ∧
    (detect_project_name "From here" = none) ∧
    (detect_project_name "with With with" = some "with") ∧
    (detect_project_name "The And For" = some "The And For") ∧
    (detect_project_name "Deployment v3" = some "Deployment") ∧
    (detect_project_name "Infra sync meeting" = some "Infra") ∧
    (detect_project_name "meeting:  Zebra crossing 99" = some "Zebra crossing") ∧
    (detect_project_name "AbcD Ef" = none) ∧
    (detect_project_name "tab\tv2" = some "tab") ∧
    (detect_project_name "news flash v2" = some "flash") ∧
    (detect_project_name "a_b v2" = some "a_b") ∧
    (detect_project_name "__ v2" = none) ∧
    (detect_project_name "Hello, World from Me" = some "World") ∧
    (detect_project_name "Q1 review: Budget Planning" = some "Budget Planning") ∧
    (detect_project_name "implementation details" = none) ∧
    (detect_project_name "x reimplementation" = none) ∧
    (capWords "Helm Drift Detection the Alpha Beta AbcD Ab1 Ab CD x Ab CdE".data
        = ["Helm Drift Detection", "Alpha Beta", "Ab", "Ab"]) ∧
    (pyTitle "alpha" = "Alpha") ∧
    (pyTitle "a1b" = "A1B") := by
  decide

/-- Spot checks of the embedded `datetime.fromisoformat` / `isoformat` fragment on the string shapes the analyzer produces. -/
theorem datetime_model_checks :
    (pyFromIso "2025-01-10" = some ⟨2025, 1, 10, 0, 0, 0, none⟩) ∧
    (pyFromIso "2025-01-15T10:00:00+00:00" = some ⟨2025, 1, 15, 10, 0, 0, some 0⟩) ∧
    (pyFromIso "garbage" = none) ∧
    (pyFromIso "bad-date" = none) ∧
    (pyFromIso "2025-02-30" = none) ∧
    (pyFromIso "2024-02-29T23:59:59-05:30" = some ⟨2024, 2, 29, 23, 59, 59, some (-330)⟩) ∧
    (pyIsoformat ⟨2025, 1, 15, 10, 0, 0, some 0⟩ = "2025-01-15T10:00:00+00:00") ∧
    (pyIsoformat ⟨2025, 1, 10, 0, 0, 0, none⟩ = "2025-01-10T00:00:00") := by
  decide

/-- Spot checks of grouping, merging and quarter organization on concrete records: the RBAC scenario buckets, a successful one-project merge, and the raising merge/organize runs. -/
theorem pipeline_model_checks :
    (analyze_prs pickId []
          [⟨"RBAC V2 Implementation", "Role-based access control", "2025-01-15T10:00:00Z",
            "https://github.com/test/pr/1"⟩] =
        [("RBAC", [⟨"RBAC V2 Implementation", "Role-based access control", "2025-01-15T10:00:00Z",
            "https://github.com/test/pr/1"⟩])]) ∧
    (analyze_calendar_events pickId [] [⟨"RBAC kickoff meeting", "", "2025-01-10"⟩] =
        [("RBAC", [⟨"RBAC kickoff meeting", "", "2025-01-10"⟩])]) ∧
    (merge_projects pickId []
          [("RBAC", [⟨"RBAC V2 Implementation", "Role-based access control", "2025-01-15T10:00:00Z",
            "https://github.com/test/pr/1"⟩])]
          [("RBAC", [⟨"RBAC kickoff meeting", "", "2025-01-10"⟩])] = .error ()) ∧
    (merge_projects pickId [] [("X", [⟨"t", "b", "garbage", "u"⟩])] [] = .error ()) ∧
    (merge_projects pickId [] [("A", [⟨"x", "", "2025-01-15T10:00:00Z", ""⟩])] [] =
        .ok [("A",
          { name := "A", category := "feature", icon_class := "icon-feature",
            icon_emoji := get_icon_emoji "feature",
            start_date := some "2025-01-15T10:00:00+00:00",
            end_date := some "2025-01-15T10:00:00+00:00",
            quarter := some "Q1 2025",
            description := "A project work throughout the year.",
            prs := [⟨"x", "", "2025-01-15T10:00:00Z", ""⟩], events := [],
            github_links := [], calendar_links := [], tags := ["feature"] })]) ∧
    ((merge_projects pickId [] [("A", [⟨"x", "", "2025-01-15T10:00:00Z", ""⟩])]
            [("B", [⟨"zzz", "", "bad-date"⟩])]).bind
          (fun m => organize_by_quarter (m.map Prod.snd)) = .error ()) := by
  decide
